import Mathlib

/-!
Verification development for the rust-payments-engine repository.

The repository's core is embedded shallowly:

* `rust_decimal::Decimal` values are modelled as integers counted in
  `10^-4` units (the working scale of all amounts in the system; spec §6
  limits input amounts to 4 fractional digits).  `checked_add` /
  `checked_sub` fail exactly when the magnitude of the result exceeds the
  96-bit mantissa bound `DMAX`, mirroring rust_decimal's overflow
  behaviour for values at a common scale.
* The `HashMap` / `DashMap` containers are modelled as association lists
  with unique keys (entries are only appended when the key is absent and
  replaced in place otherwise); the only observations the engines make
  are keyed lookups and a final snapshot that is sorted by client id, so
  the iteration order of the real hash maps is irrelevant.
* Rust methods that mutate `&mut self` and return `Result<(), PaymentError>`
  become functions returning a `(result, new state)` pair, so that state
  changes on error paths (for example lazy account creation) are captured
  faithfully.
* The closure-taking `update` combinators of the async components receive
  closures returning `(result, new value)`; the mutated value persists
  even when the closure reports an error, exactly as a Rust `&mut`
  closure mutation does.
-/

namespace Payments

/-- A rust_decimal value, counted in units of `10^-4`. -/
abbrev Dec := Int

/-- The 96-bit mantissa bound of `rust_decimal::Decimal`. -/
def DMAX : Int := 2 ^ 96 - 1

/-- Model of `Decimal::checked_add`: fails iff the result overflows. -/
def checkedAdd (x y : Dec) : Option Dec :=
  if -DMAX ≤ x + y ∧ x + y ≤ DMAX then some (x + y) else none

/-- Model of `Decimal::checked_sub`: fails iff the result overflows. -/
def checkedSub (x y : Dec) : Option Dec :=
  if -DMAX ≤ x - y ∧ x - y ≤ DMAX then some (x - y) else none

/-- `src/types/transaction.rs`: the five transaction types. -/
inductive TransactionType where
  | deposit
  | withdrawal
  | dispute
  | resolve
  | chargeback
  deriving DecidableEq

/-- `src/types/transaction.rs`: input transaction record (client ids are
`u16`, transaction ids `u32`; the numeric ranges play no role in the
claims, so both are modelled as `Nat`). -/
structure TransactionRecord where
  tx_type : TransactionType
  client : Nat
  tx : Nat
  amount : Option Dec
  deriving DecidableEq

/-- `src/types/account.rs`: client account state. -/
structure Account where
  client : Nat
  available : Dec
  held : Dec
  total : Dec
  locked : Bool
  deriving DecidableEq

/-- `Account::new`: zero balances, unlocked. -/
def Account.new (client : Nat) : Account :=
  { client := client, available := 0, held := 0, total := 0, locked := false }

/-- `src/types/transaction.rs`: stored transaction for dispute resolution. -/
structure StoredTransaction where
  client : Nat
  amount : Dec
  tx_type : TransactionType
  under_dispute : Bool
  deriving DecidableEq

/-- `src/types/error.rs`: the error taxonomy.  The Rust variants carry
diagnostic payloads (client ids, amounts, operation names); the claims
only distinguish the variants, so the payloads are dropped. -/
inductive PaymentError where
  | MissingAmount
  | DuplicateTransaction
  | AccountLocked
  | InsufficientFunds
  | InsufficientAvailableFunds
  | InsufficientHeldFunds
  | TransactionNotFound
  | ClientMismatch
  | TransactionAlreadyDisputed
  | TransactionNotDisputed
  | ArithmeticOverflow
  | ArithmeticUnderflow
  deriving DecidableEq

/-- The result of a fallible engine operation (`Result<(), PaymentError>`). -/
inductive PResult where
  | ok
  | err (e : PaymentError)
  deriving DecidableEq

/-- Keyed lookup in an association-list map (first matching key). -/
def mfind {α : Type} (m : List (Nat × α)) (k : Nat) : Option α :=
  match m with
  | [] => none
  | (k', v) :: rest => if k' = k then some v else mfind rest k

/-- Replace the value stored at an existing key, leaving other entries
untouched (models mutation through a `&mut` reference into the map). -/
def mset {α : Type} (m : List (Nat × α)) (k : Nat) (v : α) : List (Nat × α) :=
  match m with
  | [] => []
  | (k', v') :: rest => if k' = k then (k', v) :: rest else (k', v') :: mset rest k v

/-- The account map owned by an `AccountManager` / `AsyncAccountManager`. -/
abbrev AccountMap := List (Nat × Account)

/-- The transaction map owned by a `TransactionStore` / `AsyncTransactionStore`. -/
abbrev TxMap := List (Nat × StoredTransaction)

namespace AccountManager

/-- `AccountManager::get_or_create_account`: returns the account (creating
a fresh zero account and inserting it when absent) together with the map
after the potential insertion. -/
def get_or_create_account (m : AccountMap) (client : Nat) : Account × AccountMap :=
  match mfind m client with
  | some a => (a, m)
  | none => (Account.new client, m ++ [(client, Account.new client)])

/-- `AccountManager::is_locked`: false for unknown clients. -/
def is_locked (m : AccountMap) (client : Nat) : Bool :=
  match mfind m client with
  | some a => a.locked
  | none => false

/-- `AccountManager::get_all_accounts` returns the accounts sorted by
client id; the sort itself is shared with the CSV writer below. -/
def values (m : AccountMap) : List Account :=
  m.map Prod.snd

/-- `AccountManager::deposit`: checked adds to `available` and `total`;
on failure the balances are left unchanged (the lazily created account,
if any, remains). -/
def deposit (m : AccountMap) (client : Nat) (amount : Dec) : PResult × AccountMap :=
  let account := (get_or_create_account m client).1
  let m1 := (get_or_create_account m client).2
  match checkedAdd account.available amount with
  | none => (.err .ArithmeticOverflow, m1)
  | some new_available =>
    match checkedAdd account.total amount with
    | none => (.err .ArithmeticOverflow, m1)
    | some new_total =>
      (.ok, mset m1 client { account with available := new_available, total := new_total })

/-- `AccountManager::withdraw`: requires `available ≥ amount`, then
checked subtracts from `available` and `total`. -/
def withdraw (m : AccountMap) (client : Nat) (amount : Dec) : PResult × AccountMap :=
  let account := (get_or_create_account m client).1
  let m1 := (get_or_create_account m client).2
  if account.available < amount then
    (.err .InsufficientFunds, m1)
  else
    match checkedSub account.available amount with
    | none => (.err .ArithmeticUnderflow, m1)
    | some new_available =>
      match checkedSub account.total amount with
      | none => (.err .ArithmeticUnderflow, m1)
      | some new_total =>
        (.ok, mset m1 client { account with available := new_available, total := new_total })

/-- `AccountManager::hold_funds`: requires `available ≥ amount`, moves
the amount from `available` to `held`; `total` unchanged. -/
def hold_funds (m : AccountMap) (client : Nat) (amount : Dec) : PResult × AccountMap :=
  let account := (get_or_create_account m client).1
  let m1 := (get_or_create_account m client).2
  if account.available < amount then
    (.err .InsufficientAvailableFunds, m1)
  else
    match checkedSub account.available amount with
    | none => (.err .ArithmeticUnderflow, m1)
    | some new_available =>
      match checkedAdd account.held amount with
      | none => (.err .ArithmeticOverflow, m1)
      | some new_held =>
        (.ok, mset m1 client { account with available := new_available, held := new_held })

/-- `AccountManager::release_funds`: requires `held ≥ amount`, moves the
amount from `held` back to `available`; `total` unchanged. -/
def release_funds (m : AccountMap) (client : Nat) (amount : Dec) : PResult × AccountMap :=
  let account := (get_or_create_account m client).1
  let m1 := (get_or_create_account m client).2
  if account.held < amount then
    (.err .InsufficientHeldFunds, m1)
  else
    match checkedSub account.held amount with
    | none => (.err .ArithmeticUnderflow, m1)
    | some new_held =>
      match checkedAdd account.available amount with
      | none => (.err .ArithmeticOverflow, m1)
      | some new_available =>
        (.ok, mset m1 client { account with held := new_held, available := new_available })

/-- `AccountManager::chargeback`: requires `held ≥ amount`, removes the
amount from `held` and `total` and locks the account. -/
def chargeback (m : AccountMap) (client : Nat) (amount : Dec) : PResult × AccountMap :=
  let account := (get_or_create_account m client).1
  let m1 := (get_or_create_account m client).2
  if account.held < amount then
    (.err .InsufficientHeldFunds, m1)
  else
    match checkedSub account.held amount with
    | none => (.err .ArithmeticUnderflow, m1)
    | some new_held =>
      match checkedSub account.total amount with
      | none => (.err .ArithmeticUnderflow, m1)
      | some new_total =>
        (.ok, mset m1 client { account with held := new_held, total := new_total, locked := true })

end AccountManager

namespace TransactionStore

/-- `TransactionStore::store`: first occurrence wins; a duplicate id is a
no-op. -/
def store (m : TxMap) (tx_id : Nat) (tx : StoredTransaction) : TxMap :=
  match mfind m tx_id with
  | some _ => m
  | none => m ++ [(tx_id, tx)]

/-- `TransactionStore::mark_disputed`. -/
def mark_disputed (m : TxMap) (tx_id : Nat) : PResult × TxMap :=
  match mfind m tx_id with
  | none => (.err .TransactionNotFound, m)
  | some tx => (.ok, mset m tx_id { tx with under_dispute := true })

/-- `TransactionStore::mark_resolved`. -/
def mark_resolved (m : TxMap) (tx_id : Nat) : PResult × TxMap :=
  match mfind m tx_id with
  | none => (.err .TransactionNotFound, m)
  | some tx => (.ok, mset m tx_id { tx with under_dispute := false })

end TransactionStore

/-- The joint state of an engine: the account manager's map and the
transaction store's map.  The sequential and the concurrent engine share
this state shape. -/
structure EngineState where
  accounts : AccountMap
  txs : TxMap
  deriving DecidableEq

/-- `TransactionEngine::new` / `AsyncTransactionEngine` with fresh components. -/
def EngineState.empty : EngineState := { accounts := [], txs := [] }

namespace TransactionEngine

open AccountManager TransactionStore

/-- `TransactionEngine::process_deposit` (src/core/engine.rs): amount
required, duplicate id rejected, ledger deposit, then store as not
disputed. -/
def process_deposit (e : EngineState) (r : TransactionRecord) : PResult × EngineState :=
  match r.amount with
  | none => (.err .MissingAmount, e)
  | some amount =>
    if (mfind e.txs r.tx).isSome then
      (.err .DuplicateTransaction, e)
    else
      let dres := AccountManager.deposit e.accounts r.client amount
      match dres.1 with
      | .err er => (.err er, { e with accounts := dres.2 })
      | .ok =>
        let txs' := TransactionStore.store e.txs r.tx
          { client := r.client, amount := amount, tx_type := .deposit, under_dispute := false }
        (.ok, { accounts := dres.2, txs := txs' })

/-- `TransactionEngine::process_withdrawal`: amount required, duplicate id
rejected, ledger withdraw (not stored on failure), then store. -/
def process_withdrawal (e : EngineState) (r : TransactionRecord) : PResult × EngineState :=
  match r.amount with
  | none => (.err .MissingAmount, e)
  | some amount =>
    if (mfind e.txs r.tx).isSome then
      (.err .DuplicateTransaction, e)
    else
      let wres := AccountManager.withdraw e.accounts r.client amount
      match wres.1 with
      | .err er => (.err er, { e with accounts := wres.2 })
      | .ok =>
        let txs' := TransactionStore.store e.txs r.tx
          { client := r.client, amount := amount, tx_type := .withdrawal, under_dispute := false }
        (.ok, { accounts := wres.2, txs := txs' })

/-- `TransactionEngine::process_dispute`: look up, client match, not
already disputed, hold the funds, then mark disputed. -/
def process_dispute (e : EngineState) (r : TransactionRecord) : PResult × EngineState :=
  match mfind e.txs r.tx with
  | none => (.err .TransactionNotFound, e)
  | some stored_tx =>
    if stored_tx.client ≠ r.client then
      (.err .ClientMismatch, e)
    else if stored_tx.under_dispute then
      (.err .TransactionAlreadyDisputed, e)
    else
      let hres := AccountManager.hold_funds e.accounts r.client stored_tx.amount
      match hres.1 with
      | .err er => (.err er, { e with accounts := hres.2 })
      | .ok =>
        let mres := TransactionStore.mark_disputed e.txs r.tx
        (mres.1, { accounts := hres.2, txs := mres.2 })

/-- `TransactionEngine::process_resolve`: look up, client match, must be
disputed, release the funds, then mark resolved. -/
def process_resolve (e : EngineState) (r : TransactionRecord) : PResult × EngineState :=
  match mfind e.txs r.tx with
  | none => (.err .TransactionNotFound, e)
  | some stored_tx =>
    if stored_tx.client ≠ r.client then
      (.err .ClientMismatch, e)
    else if ¬stored_tx.under_dispute then
      (.err .TransactionNotDisputed, e)
    else
      let rres := AccountManager.release_funds e.accounts r.client stored_tx.amount
      match rres.1 with
      | .err er => (.err er, { e with accounts := rres.2 })
      | .ok =>
        let mres := TransactionStore.mark_resolved e.txs r.tx
        (mres.1, { accounts := rres.2, txs := mres.2 })

/-- `TransactionEngine::process_chargeback`: look up, client match, must
be disputed, then ledger chargeback (locks the account; the dispute flag
is left as-is). -/
def process_chargeback (e : EngineState) (r : TransactionRecord) : PResult × EngineState :=
  match mfind e.txs r.tx with
  | none => (.err .TransactionNotFound, e)
  | some stored_tx =>
    if stored_tx.client ≠ r.client then
      (.err .ClientMismatch, e)
    else if ¬stored_tx.under_dispute then
      (.err .TransactionNotDisputed, e)
    else
      let cres := AccountManager.chargeback e.accounts r.client stored_tx.amount
      (cres.1, { e with accounts := cres.2 })

/-- `TransactionEngine::process` (src/core/engine.rs lines 60-74): the
lock check is performed up front for EVERY transaction type, then the
record is routed by type. -/
def process (e : EngineState) (r : TransactionRecord) : PResult × EngineState :=
  if AccountManager.is_locked e.accounts r.client then
    (.err .AccountLocked, e)
  else
    match r.tx_type with
    | .deposit => process_deposit e r
    | .withdrawal => process_withdrawal e r
    | .dispute => process_dispute e r
    | .resolve => process_resolve e r
    | .chargeback => process_chargeback e r

end TransactionEngine

namespace AsyncAccountManager

/-- `AsyncAccountManager::update` (src/core/async/account_manager.rs lines
115-124): get-or-create the entry, then run the closure on it.  The
closure mutates the entry in place, so the (possibly partially) mutated
account persists even when the closure returns an error. -/
def update (m : AccountMap) (client : Nat) (f : Account → PResult × Account) :
    PResult × AccountMap :=
  match mfind m client with
  | some a => ((f a).1, mset m client (f a).2)
  | none => ((f (Account.new client)).1, m ++ [(client, (f (Account.new client)).2)])

end AsyncAccountManager

namespace AsyncTransactionStore

/-- `AsyncTransactionStore::store`: first occurrence wins. -/
def store (m : TxMap) (tx_id : Nat) (tx : StoredTransaction) : TxMap :=
  match mfind m tx_id with
  | some _ => m
  | none => m ++ [(tx_id, tx)]

/-- `AsyncTransactionStore::update`: run the closure on the stored entry
(the mutated entry persists even on closure error); `TransactionNotFound`
if the id is absent. -/
def update (m : TxMap) (tx_id : Nat) (f : StoredTransaction → PResult × StoredTransaction) :
    PResult × TxMap :=
  match mfind m tx_id with
  | none => (.err .TransactionNotFound, m)
  | some tx => ((f tx).1, mset m tx_id (f tx).2)

end AsyncTransactionStore

namespace AsyncTransactionEngine

/-- `AsyncTransactionEngine::process_deposit` (src/core/async/engine.rs
lines 95-135): amount required, duplicate id rejected, the transaction is
stored FIRST, and only then is the balance updated with checked
arithmetic (the closure mutates `available` before checking `total`). -/
def process_deposit (e : EngineState) (r : TransactionRecord) : PResult × EngineState :=
  match r.amount with
  | none => (.err .MissingAmount, e)
  | some amount =>
    if (mfind e.txs r.tx).isSome then
      (.err .DuplicateTransaction, e)
    else
      let txs' := AsyncTransactionStore.store e.txs r.tx
        { client := r.client, amount := amount, tx_type := r.tx_type, under_dispute := false }
      let ures := AsyncAccountManager.update e.accounts r.client fun account =>
        match checkedAdd account.available amount with
        | none => (.err .ArithmeticOverflow, account)
        | some new_available =>
          let account1 := { account with available := new_available }
          match checkedAdd account1.total amount with
          | none => (.err .ArithmeticOverflow, account1)
          | some new_total => (.ok, { account1 with total := new_total })
      (ures.1, { accounts := ures.2, txs := txs' })

/-- `AsyncTransactionEngine::process_withdrawal` (lines 154-215): amount
required, duplicate id rejected, balance update with the insufficient
funds check inside the closure, and the transaction is stored only after
a successful update. -/
def process_withdrawal (e : EngineState) (r : TransactionRecord) : PResult × EngineState :=
  match r.amount with
  | none => (.err .MissingAmount, e)
  | some amount =>
    if (mfind e.txs r.tx).isSome then
      (.err .DuplicateTransaction, e)
    else
      let ures := AsyncAccountManager.update e.accounts r.client fun account =>
        if account.available < amount then
          (.err .InsufficientFunds, account)
        else
          match checkedSub account.available amount with
          | none => (.err .ArithmeticUnderflow, account)
          | some new_available =>
            let account1 := { account with available := new_available }
            match checkedSub account1.total amount with
            | none => (.err .ArithmeticUnderflow, account1)
            | some new_total => (.ok, { account1 with total := new_total })
      match ures.1 with
      | .err er => (.err er, { e with accounts := ures.2 })
      | .ok =>
        let txs' := AsyncTransactionStore.store e.txs r.tx
          { client := r.client, amount := amount, tx_type := r.tx_type, under_dispute := false }
        (.ok, { accounts := ures.2, txs := txs' })

/-- `AsyncTransactionEngine::process_dispute` (lines 238-281): look up,
client match, mark disputed through the store closure (fails when already
disputed), then move the funds from `available` to `held` with checked
arithmetic only — there is NO `available ≥ amount` check on this path. -/
def process_dispute (e : EngineState) (r : TransactionRecord) : PResult × EngineState :=
  match mfind e.txs r.tx with
  | none => (.err .TransactionNotFound, e)
  | some stored_tx =>
    if stored_tx.client ≠ r.client then
      (.err .ClientMismatch, e)
    else
      let sres := AsyncTransactionStore.update e.txs r.tx fun tx =>
        if tx.under_dispute then
          (.err .TransactionAlreadyDisputed, tx)
        else
          (.ok, { tx with under_dispute := true })
      match sres.1 with
      | .err er => (.err er, { e with txs := sres.2 })
      | .ok =>
        let ures := AsyncAccountManager.update e.accounts r.client fun account =>
          match checkedSub account.available stored_tx.amount with
          | none => (.err .ArithmeticUnderflow, account)
          | some new_available =>
            let account1 := { account with available := new_available }
            match checkedAdd account1.held stored_tx.amount with
            | none => (.err .ArithmeticOverflow, account1)
            | some new_held => (.ok, { account1 with held := new_held })
        (ures.1, { accounts := ures.2, txs := sres.2 })

/-- `AsyncTransactionEngine::process_resolve` (lines 304-351): look up,
client match, must be disputed, clear the flag, then move the funds from
`held` back to `available`. -/
def process_resolve (e : EngineState) (r : TransactionRecord) : PResult × EngineState :=
  match mfind e.txs r.tx with
  | none => (.err .TransactionNotFound, e)
  | some stored_tx =>
    if stored_tx.client ≠ r.client then
      (.err .ClientMismatch, e)
    else if ¬stored_tx.under_dispute then
      (.err .TransactionNotDisputed, e)
    else
      let sres := AsyncTransactionStore.update e.txs r.tx fun tx =>
        (.ok, { tx with under_dispute := false })
      match sres.1 with
      | .err er => (.err er, { e with txs := sres.2 })
      | .ok =>
        let ures := AsyncAccountManager.update e.accounts r.client fun account =>
          match checkedSub account.held stored_tx.amount with
          | none => (.err .ArithmeticUnderflow, account)
          | some new_held =>
            let account1 := { account with held := new_held }
            match checkedAdd account1.available stored_tx.amount with
            | none => (.err .ArithmeticOverflow, account1)
            | some new_available => (.ok, { account1 with available := new_available })
        (ures.1, { accounts := ures.2, txs := sres.2 })

/-- `AsyncTransactionEngine::process_chargeback` (lines 373-415): look up,
client match, must be disputed, then remove the held funds, decrease
`total` and lock the account in one closure. -/
def process_chargeback (e : EngineState) (r : TransactionRecord) : PResult × EngineState :=
  match mfind e.txs r.tx with
  | none => (.err .TransactionNotFound, e)
  | some stored_tx =>
    if stored_tx.client ≠ r.client then
      (.err .ClientMismatch, e)
    else if ¬stored_tx.under_dispute then
      (.err .TransactionNotDisputed, e)
    else
      let ures := AsyncAccountManager.update e.accounts r.client fun account =>
        match checkedSub account.held stored_tx.amount with
        | none => (.err .ArithmeticUnderflow, account)
        | some new_held =>
          let account1 := { account with held := new_held }
          match checkedSub account1.total stored_tx.amount with
          | none => (.err .ArithmeticUnderflow, account1)
          | some new_total => (.ok, { account1 with total := new_total, locked := true })
      (ures.1, { e with accounts := ures.2 })

/-- `AsyncTransactionEngine::process_transaction` (lines 432-459): the
lock check applies ONLY to deposits and withdrawals; dispute, resolve and
chargeback proceed even on locked accounts.  Then route by type. -/
def process_transaction (e : EngineState) (r : TransactionRecord) : PResult × EngineState :=
  match r.tx_type with
  | .deposit | .withdrawal =>
    if AccountManager.is_locked e.accounts r.client then
      (.err .AccountLocked, e)
    else
      match r.tx_type with
      | .deposit => process_deposit e r
      | .withdrawal => process_withdrawal e r
      | .dispute => process_dispute e r
      | .resolve => process_resolve e r
      | .chargeback => process_chargeback e r
  | .dispute | .resolve | .chargeback =>
    match r.tx_type with
    | .deposit => process_deposit e r
    | .withdrawal => process_withdrawal e r
    | .dispute => process_dispute e r
    | .resolve => process_resolve e r
    | .chargeback => process_chargeback e r

end AsyncTransactionEngine

/-- The single-threaded baseline strategy (src/strategy/sync.rs): apply
every record to the sequential engine in source order; per-record errors
are reported and skipped. -/
def runSync (rs : List TransactionRecord) : EngineState :=
  rs.foldl (fun e r => (TransactionEngine.process e r).2) EngineState.empty

/-- In-order application of the concurrent engine to a record sequence.
`BatchProcessor::process_client_transactions` applies one client's
partition strictly in order; for an input all of whose records belong to
a single client this fold is the exact behaviour of the concurrent
strategy for every chunking and worker count (spec §4.4: chunks are
processed strictly in sequence and a chunk has one worker per distinct
client, so with one client there is no cross-client interleaving). -/
def runAsync (rs : List TransactionRecord) : EngineState :=
  rs.foldl (fun e r => (AsyncTransactionEngine.process_transaction e r).2) EngineState.empty

/-- Split a list into chunks of size `n`; the first argument is fuel
(instantiated with the list length). -/
def chunksGo {α : Type} (n : Nat) : Nat → List α → List (List α)
  | _, [] => []
  | 0, _ :: _ => []
  | fuel + 1, x :: xs => (x :: xs).take n :: chunksGo n fuel ((x :: xs).drop n)

/-- `AsyncReader::read_batch` slices the input into consecutive chunks of
`chunk_size` records. -/
def chunks {α : Type} (n : Nat) (l : List α) : List (List α) :=
  chunksGo n l.length l

/-- The concurrent batch strategy (src/strategy/async.rs +
src/core/async/batch_processor.rs) for a single-client input: chunks are
read and processed strictly in sequence, and within a chunk the single
client's partition (= the whole chunk, in source order) is applied by one
worker.  `worker_count` only affects scheduling across distinct clients
and is therefore irrelevant here. -/
def runAsyncBatched (chunkSize : Nat) (rs : List TransactionRecord) : EngineState :=
  (chunks chunkSize rs).foldl
    (fun e chunk =>
      chunk.foldl (fun e' r => (AsyncTransactionEngine.process_transaction e' r).2) e)
    EngineState.empty

/-- Ordering of accounts by client id, used by the output sort. -/
def byClient (a b : Account) : Prop := a.client ≤ b.client

instance : DecidableRel byClient := fun a b => inferInstanceAs (Decidable (a.client ≤ b.client))

instance : IsTotal Account byClient := ⟨fun a b => Nat.le_total a.client b.client⟩

instance : IsTrans Account byClient := ⟨fun _ _ _ h1 h2 => Nat.le_trans h1 h2⟩

/-- `sort_by_key(|account| account.client)`: a stable sort by client id
(Rust's stable sort and insertion sort agree on the result). -/
def sortAccounts (l : List Account) : List Account :=
  List.insertionSort byClient l

/-- The final account snapshot of an engine state: all accounts, sorted
ascending by client id (`AccountManager::get_all_accounts` /
`write_accounts_csv`). -/
def snapshot (e : EngineState) : List Account :=
  sortAccounts (AccountManager.values e.accounts)

/-- Accumulate the value of a digit sequence; fails on a non-digit. -/
def digitsVal : List Char → Nat → Option Nat
  | [], acc => some acc
  | c :: cs, acc =>
    if c.isDigit then digitsVal cs (acc * 10 + (c.toNat - '0'.toNat)) else none

/-- Model of `Decimal::from_str` for plain decimal strings, producing a
value in `10^-4` units: an optional sign, a non-empty integer digit run,
and an optional fraction of at most 4 digits (spec §6 admits at most 4
fractional digits).  The magnitude is bounded by the mantissa limit.
Note that a leading `-` is accepted: the parser carries no sign
restriction. -/
def parseDecimal (s : String) : Option Dec :=
  let cs := s.data
  let signSplit : Bool × List Char :=
    match cs with
    | '-' :: rest => (true, rest)
    | '+' :: rest => (false, rest)
    | _ => (false, cs)
  let neg := signSplit.1
  let body := signSplit.2
  let intPart := body.takeWhile (· ≠ '.')
  let rest := body.dropWhile (· ≠ '.')
  if intPart.isEmpty then none
  else
    match digitsVal intPart 0 with
    | none => none
    | some ip =>
      let fracVal : Option Nat :=
        match rest with
        | [] => some 0
        | _ :: frac =>
          if frac.length ≤ 4 then
            (digitsVal frac 0).map (fun fv => fv * 10 ^ (4 - frac.length))
          else none
      match fracVal with
      | none => none
      | some fv =>
        let mag : Nat := ip * 10000 + fv
        if (mag : Int) ≤ DMAX then some (if neg then -(mag : Int) else (mag : Int)) else none

/-- Model of `str::to_lowercase` for ASCII strings: lower-case the
character list. -/
def toLowerStr (s : String) : String := String.mk (s.data.map Char.toLower)

/-- Model of `str::trim`: strip leading and trailing whitespace. -/
def trimStr (s : String) : String :=
  String.mk (((s.data.dropWhile Char.isWhitespace).reverse.dropWhile Char.isWhitespace).reverse)

/-- `src/io/csv_format.rs`: the raw CSV record (type and amount are
strings at this layer). -/
structure CsvRecord where
  tx_type : String
  client : Nat
  tx : Nat
  amount : Option String

/-- `convert_csv_record` (src/io/csv_format.rs lines 47-101): parse the
type (case-insensitive), parse the amount if present and non-blank,
require an amount for deposit/withdrawal, and silently ignore amounts on
dispute/resolve/chargeback.  The sign of the amount is never inspected. -/
def convert_csv_record (r : CsvRecord) : Except String TransactionRecord :=
  let ty : Option TransactionType :=
    match toLowerStr r.tx_type with
    | "deposit" => some .deposit
    | "withdrawal" => some .withdrawal
    | "dispute" => some .dispute
    | "resolve" => some .resolve
    | "chargeback" => some .chargeback
    | _ => none
  match ty with
  | none => .error "Invalid transaction type"
  | some tx_type =>
    let amountRes : Except String (Option Dec) :=
      match r.amount with
      | some s =>
        if (trimStr s).data.isEmpty then .ok none
        else
          match parseDecimal (trimStr s) with
          | some d => .ok (some d)
          | none => .error "Invalid amount"
      | none => .ok none
    match amountRes with
    | .error msg => .error msg
    | .ok amount =>
      match tx_type with
      | .deposit | .withdrawal =>
        if amount.isNone then .error "transaction requires an amount"
        else .ok { tx_type := tx_type, client := r.client, tx := r.tx, amount := amount }
      | _ => .ok { tx_type := tx_type, client := r.client, tx := r.tx, amount := amount }

/-- The four fraction digits printed by `format!("{:.4}", value)` for a
value in `10^-4` units. -/
def fracDigits (x : Dec) : List Char :=
  let m := x.natAbs % 10000
  [Nat.digitChar (m / 1000), Nat.digitChar (m / 100 % 10),
   Nat.digitChar (m / 10 % 10), Nat.digitChar (m % 10)]

/-- `format!("{:.4}", value)` on a `10^-4`-unit value: sign, integer
part, a dot, and exactly four fraction digits. -/
def fmt4 (x : Dec) : String :=
  (if x < 0 then "-" else "") ++ toString (x.natAbs / 10000) ++ "." ++ String.mk (fracDigits x)

/-- `locked.to_string()`: the boolean literal. -/
def boolLiteral (b : Bool) : String := if b then "true" else "false"

/-- The header row written by `write_accounts_csv`. -/
def headerRow : List String := ["client", "available", "held", "total", "locked"]

/-- One output row per account. -/
def accountRow (a : Account) : List String :=
  [toString a.client, fmt4 a.available, fmt4 a.held, fmt4 a.total, boolLiteral a.locked]

/-- `write_accounts_csv` (src/io/csv_format.rs lines 117-149): header,
then one row per account, sorted by client id. -/
def write_accounts_csv (accounts : List Account) : List (List String) :=
  headerRow :: (sortAccounts accounts).map accountRow

/-! ### Basic lemmas about the association-list maps and checked arithmetic -/

theorem checkedAdd_some {x y z : Dec} (h : checkedAdd x y = some z) : z = x + y := by
  unfold checkedAdd at h
  split at h
  · exact (Option.some.injEq _ _ ▸ h).symm
  · exact absurd h (by simp)

theorem checkedSub_some {x y z : Dec} (h : checkedSub x y = some z) : z = x - y := by
  unfold checkedSub at h
  split at h
  · exact (Option.some.injEq _ _ ▸ h).symm
  · exact absurd h (by simp)

theorem mfind_mem {α : Type} : ∀ {m : List (Nat × α)} {k : Nat} {v : α},
    mfind m k = some v → (k, v) ∈ m := by
  intro m
  induction m with
  | nil => intro k v h; simp [mfind] at h
  | cons p rest ih =>
    intro k v h
    obtain ⟨k', v'⟩ := p
    unfold mfind at h
    split at h
    · simp_all
    · exact List.mem_cons_of_mem _ (ih h)

theorem mset_self {α : Type} : ∀ {m : List (Nat × α)} {k : Nat} {v : α},
    mfind m k = some v → mset m k v = m := by
  intro m
  induction m with
  | nil => intro k v h; simp [mfind] at h
  | cons p rest ih =>
    intro k v h
    obtain ⟨k', v'⟩ := p
    unfold mfind at h
    unfold mset
    split at h
    · simp_all
    · simp_all [ih h]

theorem mem_mset {α : Type} : ∀ {m : List (Nat × α)} {k : Nat} {v : α} {p : Nat × α},
    p ∈ mset m k v → p.2 = v ∨ p ∈ m := by
  intro m
  induction m with
  | nil => intro k v p h; simp [mset] at h
  | cons q rest ih =>
    intro k v p h
    obtain ⟨k', v'⟩ := q
    unfold mset at h
    split at h
    · rcases List.mem_cons.mp h with h1 | h1
      · left; rw [h1]
      · right; exact List.mem_cons_of_mem _ h1
    · rcases List.mem_cons.mp h with h1 | h1
      · right; exact List.mem_cons.mpr (Or.inl h1)
      · rcases ih h1 with h2 | h2
        · left; exact h2
        · right; exact List.mem_cons_of_mem _ h2

theorem mfind_append_none {α : Type} : ∀ {m l : List (Nat × α)} {k : Nat},
    mfind m k = none → mfind (m ++ l) k = mfind l k := by
  intro m
  induction m with
  | nil => intro l k _; rfl
  | cons p rest ih =>
    intro l k h
    obtain ⟨k', v'⟩ := p
    by_cases hk : k' = k
    · simp [mfind, hk] at h
    · have h' : mfind rest k = none := by simpa [mfind, hk] using h
      simpa [mfind, hk] using ih h'

/-- The per-account balance invariant of spec §3. -/
def AccountOK (a : Account) : Prop :=
  a.total = a.available + a.held ∧ 0 ≤ a.available ∧ 0 ≤ a.held

/-- Every account in the map satisfies the balance invariant. -/
def AccountsOK (m : AccountMap) : Prop := ∀ p ∈ m, AccountOK p.2

/-- Every stored transaction has a non-negative amount. -/
def TxsOK (m : TxMap) : Prop := ∀ p ∈ m, 0 ≤ p.2.amount

/-- An input record carries a non-negative amount (vacuous when absent). -/
def nonnegAmount (r : TransactionRecord) : Bool :=
  match r.amount with
  | some a => decide (0 ≤ a)
  | none => true

theorem get_or_create_found {m : AccountMap} {c : Nat} {a : Account}
    (h : mfind m c = some a) :
    AccountManager.get_or_create_account m c = (a, m) := by
  unfold AccountManager.get_or_create_account
  rw [h]

theorem get_or_create_missing {m : AccountMap} {c : Nat}
    (h : mfind m c = none) :
    AccountManager.get_or_create_account m c = (Account.new c, m ++ [(c, Account.new c)]) := by
  unfold AccountManager.get_or_create_account
  rw [h]

theorem AccountOK_new (c : Nat) : AccountOK (Account.new c) :=
  ⟨rfl, le_refl 0, le_refl 0⟩

theorem AccountsOK_append_new {m : AccountMap} {c : Nat} (h : AccountsOK m) :
    AccountsOK (m ++ [(c, Account.new c)]) := by
  intro p hp
  rcases List.mem_append.mp hp with h1 | h1
  · exact h p h1
  · simp only [List.mem_singleton] at h1
    rw [h1]
    exact AccountOK_new c

theorem AccountsOK_mset {m : AccountMap} {c : Nat} {a : Account}
    (h : AccountsOK m) (ha : AccountOK a) : AccountsOK (mset m c a) := by
  intro p hp
  rcases mem_mset hp with h1 | h1
  · rw [h1]; exact ha
  · exact h p h1

theorem AccountOK_fields {c : Nat} {av hd tt : Dec} {lk : Bool}
    (h1 : tt = av + hd) (h2 : 0 ≤ av) (h3 : 0 ≤ hd) :
    AccountOK { client := c, available := av, held := hd, total := tt, locked := lk } :=
  ⟨h1, h2, h3⟩

theorem deposit_AccountsOK {m : AccountMap} {c : Nat} {amt : Dec}
    (h : AccountsOK m) (ha : 0 ≤ amt) :
    AccountsOK (AccountManager.deposit m c amt).2 := by
  unfold AccountManager.deposit
  cases hm : mfind m c with
  | some a =>
    rw [get_or_create_found hm]
    obtain ⟨hT, hAv, hH⟩ := h _ (mfind_mem hm)
    dsimp only
    cases h1 : checkedAdd a.available amt with
    | none => exact h
    | some nav =>
      cases h2 : checkedAdd a.total amt with
      | none => exact h
      | some nt =>
        have e1 := checkedAdd_some h1
        have e2 := checkedAdd_some h2
        refine AccountsOK_mset h (AccountOK_fields ?_ ?_ ?_) <;> linarith
  | none =>
    rw [get_or_create_missing hm]
    dsimp only [Account.new]
    cases h1 : checkedAdd 0 amt with
    | none => exact AccountsOK_append_new h
    | some nav =>
      have e1 := checkedAdd_some h1
      refine AccountsOK_mset (AccountsOK_append_new h) (AccountOK_fields ?_ ?_ ?_) <;> linarith

theorem withdraw_AccountsOK {m : AccountMap} {c : Nat} {amt : Dec}
    (h : AccountsOK m) :
    AccountsOK (AccountManager.withdraw m c amt).2 := by
  unfold AccountManager.withdraw
  cases hm : mfind m c with
  | some a =>
    rw [get_or_create_found hm]
    obtain ⟨hT, hAv, hH⟩ := h _ (mfind_mem hm)
    dsimp only
    by_cases hlt : a.available < amt
    · simpa [hlt] using h
    · rw [if_neg hlt]
      cases h1 : checkedSub a.available amt with
      | none => exact h
      | some nav =>
        cases h2 : checkedSub a.total amt with
        | none => exact h
        | some nt =>
          have e1 := checkedSub_some h1
          have e2 := checkedSub_some h2
          refine AccountsOK_mset h (AccountOK_fields ?_ ?_ ?_) <;> linarith
  | none =>
    rw [get_or_create_missing hm]
    dsimp only [Account.new]
    by_cases hlt : (0 : Dec) < amt
    · simpa [hlt] using AccountsOK_append_new h
    · rw [if_neg hlt]
      cases h1 : checkedSub 0 amt with
      | none => exact AccountsOK_append_new h
      | some nav =>
        have e1 := checkedSub_some h1
        refine AccountsOK_mset (AccountsOK_append_new h) (AccountOK_fields ?_ ?_ ?_) <;> linarith

theorem hold_funds_AccountsOK {m : AccountMap} {c : Nat} {amt : Dec}
    (h : AccountsOK m) (ha : 0 ≤ amt) :
    AccountsOK (AccountManager.hold_funds m c amt).2 := by
  unfold AccountManager.hold_funds
  cases hm : mfind m c with
  | some a =>
    rw [get_or_create_found hm]
    obtain ⟨hT, hAv, hH⟩ := h _ (mfind_mem hm)
    dsimp only
    by_cases hlt : a.available < amt
    · simpa [hlt] using h
    · rw [if_neg hlt]
      cases h1 : checkedSub a.available amt with
      | none => exact h
      | some nav =>
        cases h2 : checkedAdd a.held amt with
        | none => exact h
        | some nh =>
          have e1 := checkedSub_some h1
          have e2 := checkedAdd_some h2
          refine AccountsOK_mset h (AccountOK_fields ?_ ?_ ?_) <;> linarith
  | none =>
    rw [get_or_create_missing hm]
    dsimp only [Account.new]
    by_cases hlt : (0 : Dec) < amt
    · simpa [hlt] using AccountsOK_append_new h
    · rw [if_neg hlt]
      cases h1 : checkedSub 0 amt with
      | none => exact AccountsOK_append_new h
      | some nav =>
        cases h2 : checkedAdd 0 amt with
        | none => exact AccountsOK_append_new h
        | some nh =>
          have e1 := checkedSub_some h1
          have e2 := checkedAdd_some h2
          refine AccountsOK_mset (AccountsOK_append_new h) (AccountOK_fields ?_ ?_ ?_) <;> linarith

theorem release_funds_AccountsOK {m : AccountMap} {c : Nat} {amt : Dec}
    (h : AccountsOK m) (ha : 0 ≤ amt) :
    AccountsOK (AccountManager.release_funds m c amt).2 := by
  unfold AccountManager.release_funds
  cases hm : mfind m c with
  | some a =>
    rw [get_or_create_found hm]
    obtain ⟨hT, hAv, hH⟩ := h _ (mfind_mem hm)
    dsimp only
    by_cases hlt : a.held < amt
    · simpa [hlt] using h
    · rw [if_neg hlt]
      cases h1 : checkedSub a.held amt with
      | none => exact h
      | some nh =>
        cases h2 : checkedAdd a.available amt with
        | none => exact h
        | some nav =>
          have e1 := checkedSub_some h1
          have e2 := checkedAdd_some h2
          refine AccountsOK_mset h (AccountOK_fields ?_ ?_ ?_) <;> linarith
  | none =>
    rw [get_or_create_missing hm]
    dsimp only [Account.new]
    by_cases hlt : (0 : Dec) < amt
    · simpa [hlt] using AccountsOK_append_new h
    · rw [if_neg hlt]
      cases h1 : checkedSub 0 amt with
      | none => exact AccountsOK_append_new h
      | some nh =>
        cases h2 : checkedAdd 0 amt with
        | none => exact AccountsOK_append_new h
        | some nav =>
          have e1 := checkedSub_some h1
          have e2 := checkedAdd_some h2
          refine AccountsOK_mset (AccountsOK_append_new h) (AccountOK_fields ?_ ?_ ?_) <;> linarith

theorem chargeback_AccountsOK {m : AccountMap} {c : Nat} {amt : Dec}
    (h : AccountsOK m) :
    AccountsOK (AccountManager.chargeback m c amt).2 := by
  unfold AccountManager.chargeback
  cases hm : mfind m c with
  | some a =>
    rw [get_or_create_found hm]
    obtain ⟨hT, hAv, hH⟩ := h _ (mfind_mem hm)
    dsimp only
    by_cases hlt : a.held < amt
    · simpa [hlt] using h
    · rw [if_neg hlt]
      cases h1 : checkedSub a.held amt with
      | none => exact h
      | some nh =>
        cases h2 : checkedSub a.total amt with
        | none => exact h
        | some nt =>
          have e1 := checkedSub_some h1
          have e2 := checkedSub_some h2
          refine AccountsOK_mset h (AccountOK_fields ?_ ?_ ?_) <;> linarith
  | none =>
    rw [get_or_create_missing hm]
    dsimp only [Account.new]
    by_cases hlt : (0 : Dec) < amt
    · simpa [hlt] using AccountsOK_append_new h
    · rw [if_neg hlt]
      cases h1 : checkedSub 0 amt with
      | none => exact AccountsOK_append_new h
      | some nh =>
        have e1 := checkedSub_some h1
        refine AccountsOK_mset (AccountsOK_append_new h) (AccountOK_fields ?_ ?_ ?_) <;> linarith

theorem store_TxsOK {m : TxMap} {id : Nat} {tx : StoredTransaction}
    (h : TxsOK m) (ht : 0 ≤ tx.amount) :
    TxsOK (TransactionStore.store m id tx) := by
  unfold TransactionStore.store
  cases hm : mfind m id with
  | some _ => exact h
  | none =>
    intro p hp
    rcases List.mem_append.mp hp with h1 | h1
    · exact h p h1
    · simp only [List.mem_singleton] at h1
      rw [h1]
      exact ht

theorem mark_disputed_TxsOK {m : TxMap} {id : Nat} (h : TxsOK m) :
    TxsOK (TransactionStore.mark_disputed m id).2 := by
  unfold TransactionStore.mark_disputed
  cases hm : mfind m id with
  | none => exact h
  | some tx =>
    intro p hp
    rcases mem_mset hp with h1 | h1
    · rw [h1]
      exact h _ (mfind_mem hm)
    · exact h p h1

theorem mark_resolved_TxsOK {m : TxMap} {id : Nat} (h : TxsOK m) :
    TxsOK (TransactionStore.mark_resolved m id).2 := by
  unfold TransactionStore.mark_resolved
  cases hm : mfind m id with
  | none => exact h
  | some tx =>
    intro p hp
    rcases mem_mset hp with h1 | h1
    · rw [h1]
      exact h _ (mfind_mem hm)
    · exact h p h1

/-! ### The sequential engine preserves the balance invariant -/

theorem process_deposit_StateOK {e : EngineState} {r : TransactionRecord}
    (h1 : AccountsOK e.accounts) (h2 : TxsOK e.txs) (hr : nonnegAmount r = true) :
    AccountsOK (TransactionEngine.process_deposit e r).2.accounts ∧
    TxsOK (TransactionEngine.process_deposit e r).2.txs := by
  unfold TransactionEngine.process_deposit
  cases hA : r.amount with
  | none => exact ⟨h1, h2⟩
  | some amt =>
    have ha : 0 ≤ amt := by
      unfold nonnegAmount at hr
      rw [hA] at hr
      simpa using hr
    dsimp only
    cases hdup : (mfind e.txs r.tx).isSome with
    | true => exact ⟨h1, h2⟩
    | false =>
      rw [if_neg (by simp)]
      cases hop : AccountManager.deposit e.accounts r.client amt with
      | mk res am' =>
        dsimp only
        have hacc : AccountsOK am' := by
          have := @deposit_AccountsOK e.accounts r.client amt h1 ha
          rw [hop] at this
          exact this
        cases res with
        | err er => exact ⟨hacc, h2⟩
        | ok => exact ⟨hacc, store_TxsOK h2 ha⟩

theorem process_withdrawal_StateOK {e : EngineState} {r : TransactionRecord}
    (h1 : AccountsOK e.accounts) (h2 : TxsOK e.txs) (hr : nonnegAmount r = true) :
    AccountsOK (TransactionEngine.process_withdrawal e r).2.accounts ∧
    TxsOK (TransactionEngine.process_withdrawal e r).2.txs := by
  unfold TransactionEngine.process_withdrawal
  cases hA : r.amount with
  | none => exact ⟨h1, h2⟩
  | some amt =>
    have ha : 0 ≤ amt := by
      unfold nonnegAmount at hr
      rw [hA] at hr
      simpa using hr
    dsimp only
    cases hdup : (mfind e.txs r.tx).isSome with
    | true => exact ⟨h1, h2⟩
    | false =>
      rw [if_neg (by simp)]
      cases hop : AccountManager.withdraw e.accounts r.client amt with
      | mk res am' =>
        dsimp only
        have hacc : AccountsOK am' := by
          have := @withdraw_AccountsOK e.accounts r.client amt h1
          rw [hop] at this
          exact this
        cases res with
        | err er => exact ⟨hacc, h2⟩
        | ok => exact ⟨hacc, store_TxsOK h2 ha⟩

theorem process_dispute_StateOK {e : EngineState} {r : TransactionRecord}
    (h1 : AccountsOK e.accounts) (h2 : TxsOK e.txs) :
    AccountsOK (TransactionEngine.process_dispute e r).2.accounts ∧
    TxsOK (TransactionEngine.process_dispute e r).2.txs := by
  unfold TransactionEngine.process_dispute
  cases hf : mfind e.txs r.tx with
  | none => exact ⟨h1, h2⟩
  | some st =>
    have hst : 0 ≤ st.amount := h2 _ (mfind_mem hf)
    dsimp only
    by_cases hc : st.client ≠ r.client
    · rw [if_pos hc]
      exact ⟨h1, h2⟩
    · rw [if_neg hc]
      by_cases hd : st.under_dispute = true
      · rw [if_pos hd]
        exact ⟨h1, h2⟩
      · rw [if_neg hd]
        cases hop : AccountManager.hold_funds e.accounts r.client st.amount with
        | mk res am' =>
          dsimp only
          have hacc : AccountsOK am' := by
            have := @hold_funds_AccountsOK e.accounts r.client st.amount h1 hst
            rw [hop] at this
            exact this
          cases res with
          | err er => exact ⟨hacc, h2⟩
          | ok => exact ⟨hacc, mark_disputed_TxsOK h2⟩

theorem process_resolve_StateOK {e : EngineState} {r : TransactionRecord}
    (h1 : AccountsOK e.accounts) (h2 : TxsOK e.txs) :
    AccountsOK (TransactionEngine.process_resolve e r).2.accounts ∧
    TxsOK (TransactionEngine.process_resolve e r).2.txs := by
  unfold TransactionEngine.process_resolve
  cases hf : mfind e.txs r.tx with
  | none => exact ⟨h1, h2⟩
  | some st =>
    have hst : 0 ≤ st.amount := h2 _ (mfind_mem hf)
    dsimp only
    by_cases hc : st.client ≠ r.client
    · rw [if_pos hc]
      exact ⟨h1, h2⟩
    · rw [if_neg hc]
      by_cases hd : ¬st.under_dispute = true
      · rw [if_pos hd]
        exact ⟨h1, h2⟩
      · rw [if_neg hd]
        cases hop : AccountManager.release_funds e.accounts r.client st.amount with
        | mk res am' =>
          dsimp only
          have hacc : AccountsOK am' := by
            have := @release_funds_AccountsOK e.accounts r.client st.amount h1 hst
            rw [hop] at this
            exact this
          cases res with
          | err er => exact ⟨hacc, h2⟩
          | ok => exact ⟨hacc, mark_resolved_TxsOK h2⟩

theorem process_chargeback_StateOK {e : EngineState} {r : TransactionRecord}
    (h1 : AccountsOK e.accounts) (h2 : TxsOK e.txs) :
    AccountsOK (TransactionEngine.process_chargeback e r).2.accounts ∧
    TxsOK (TransactionEngine.process_chargeback e r).2.txs := by
  unfold TransactionEngine.process_chargeback
  cases hf : mfind e.txs r.tx with
  | none => exact ⟨h1, h2⟩
  | some st =>
    dsimp only
    by_cases hc : st.client ≠ r.client
    · rw [if_pos hc]
      exact ⟨h1, h2⟩
    · rw [if_neg hc]
      by_cases hd : ¬st.under_dispute = true
      · rw [if_pos hd]
        exact ⟨h1, h2⟩
      · rw [if_neg hd]
        cases hop : AccountManager.chargeback e.accounts r.client st.amount with
        | mk res am' =>
          dsimp only
          have hacc : AccountsOK am' := by
            have := @chargeback_AccountsOK e.accounts r.client st.amount h1
            rw [hop] at this
            exact this
          exact ⟨hacc, h2⟩

theorem process_StateOK {e : EngineState} {r : TransactionRecord}
    (h1 : AccountsOK e.accounts) (h2 : TxsOK e.txs) (hr : nonnegAmount r = true) :
    AccountsOK (TransactionEngine.process e r).2.accounts ∧
    TxsOK (TransactionEngine.process e r).2.txs := by
  unfold TransactionEngine.process
  cases hl : AccountManager.is_locked e.accounts r.client with
  | true => exact ⟨h1, h2⟩
  | false =>
    cases ht : r.tx_type with
    | deposit => exact process_deposit_StateOK h1 h2 hr
    | withdrawal => exact process_withdrawal_StateOK h1 h2 hr
    | dispute => exact process_dispute_StateOK h1 h2
    | resolve => exact process_resolve_StateOK h1 h2
    | chargeback => exact process_chargeback_StateOK h1 h2

theorem foldl_StateOK : ∀ (rs : List TransactionRecord) (e : EngineState),
    AccountsOK e.accounts → TxsOK e.txs → (∀ r ∈ rs, nonnegAmount r = true) →
    AccountsOK (rs.foldl (fun e r => (TransactionEngine.process e r).2) e).accounts ∧
    TxsOK (rs.foldl (fun e r => (TransactionEngine.process e r).2) e).txs := by
  intro rs
  induction rs with
  | nil => exact fun e h1 h2 _ => ⟨h1, h2⟩
  | cons r rest ih =>
    intro e h1 h2 hr
    have hstep := process_StateOK h1 h2 (hr r (List.mem_cons_self r rest))
    exact ih _ hstep.1 hstep.2 (fun x hx => hr x (List.mem_cons_of_mem _ hx))

/-! ### Error paths of the sequential engine mutate nothing except lazy
account creation -/

theorem deposit_state_shape (m : AccountMap) (c : Nat) (amt : Dec) :
    (AccountManager.deposit m c amt).1 = .ok ∨
    (AccountManager.deposit m c amt).2 = m ∨
    (mfind m c = none ∧ (AccountManager.deposit m c amt).2 = m ++ [(c, Account.new c)]) := by
  unfold AccountManager.deposit
  cases hm : mfind m c with
  | some a =>
    rw [get_or_create_found hm]
    dsimp only
    cases checkedAdd a.available amt with
    | none => exact Or.inr (Or.inl rfl)
    | some nav =>
      cases checkedAdd a.total amt with
      | none => exact Or.inr (Or.inl rfl)
      | some nt => exact Or.inl rfl
  | none =>
    rw [get_or_create_missing hm]
    dsimp only [Account.new]
    cases checkedAdd 0 amt with
    | none => exact Or.inr (Or.inr ⟨rfl, rfl⟩)
    | some nav => exact Or.inl rfl

theorem withdraw_state_shape (m : AccountMap) (c : Nat) (amt : Dec) :
    (AccountManager.withdraw m c amt).1 = .ok ∨
    (AccountManager.withdraw m c amt).2 = m ∨
    (mfind m c = none ∧ (AccountManager.withdraw m c amt).2 = m ++ [(c, Account.new c)]) := by
  unfold AccountManager.withdraw
  cases hm : mfind m c with
  | some a =>
    rw [get_or_create_found hm]
    dsimp only
    by_cases hlt : a.available < amt
    · rw [if_pos hlt]
      exact Or.inr (Or.inl rfl)
    · rw [if_neg hlt]
      cases checkedSub a.available amt with
      | none => exact Or.inr (Or.inl rfl)
      | some nav =>
        cases checkedSub a.total amt with
        | none => exact Or.inr (Or.inl rfl)
        | some nt => exact Or.inl rfl
  | none =>
    rw [get_or_create_missing hm]
    dsimp only [Account.new]
    by_cases hlt : (0 : Dec) < amt
    · rw [if_pos hlt]
      exact Or.inr (Or.inr ⟨rfl, rfl⟩)
    · rw [if_neg hlt]
      cases checkedSub 0 amt with
      | none => exact Or.inr (Or.inr ⟨rfl, rfl⟩)
      | some nav => exact Or.inl rfl

theorem hold_funds_state_shape (m : AccountMap) (c : Nat) (amt : Dec) :
    (AccountManager.hold_funds m c amt).1 = .ok ∨
    (AccountManager.hold_funds m c amt).2 = m ∨
    (mfind m c = none ∧ (AccountManager.hold_funds m c amt).2 = m ++ [(c, Account.new c)]) := by
  unfold AccountManager.hold_funds
  cases hm : mfind m c with
  | some a =>
    rw [get_or_create_found hm]
    dsimp only
    by_cases hlt : a.available < amt
    · rw [if_pos hlt]
      exact Or.inr (Or.inl rfl)
    · rw [if_neg hlt]
      cases checkedSub a.available amt with
      | none => exact Or.inr (Or.inl rfl)
      | some nav =>
        cases checkedAdd a.held amt with
        | none => exact Or.inr (Or.inl rfl)
        | some nh => exact Or.inl rfl
  | none =>
    rw [get_or_create_missing hm]
    dsimp only [Account.new]
    by_cases hlt : (0 : Dec) < amt
    · rw [if_pos hlt]
      exact Or.inr (Or.inr ⟨rfl, rfl⟩)
    · rw [if_neg hlt]
      cases checkedSub 0 amt with
      | none => exact Or.inr (Or.inr ⟨rfl, rfl⟩)
      | some nav =>
        cases checkedAdd 0 amt with
        | none => exact Or.inr (Or.inr ⟨rfl, rfl⟩)
        | some nh => exact Or.inl rfl

theorem release_funds_state_shape (m : AccountMap) (c : Nat) (amt : Dec) :
    (AccountManager.release_funds m c amt).1 = .ok ∨
    (AccountManager.release_funds m c amt).2 = m ∨
    (mfind m c = none ∧ (AccountManager.release_funds m c amt).2 = m ++ [(c, Account.new c)]) := by
  unfold AccountManager.release_funds
  cases hm : mfind m c with
  | some a =>
    rw [get_or_create_found hm]
    dsimp only
    by_cases hlt : a.held < amt
    · rw [if_pos hlt]
      exact Or.inr (Or.inl rfl)
    · rw [if_neg hlt]
      cases checkedSub a.held amt with
      | none => exact Or.inr (Or.inl rfl)
      | some nh =>
        cases checkedAdd a.available amt with
        | none => exact Or.inr (Or.inl rfl)
        | some nav => exact Or.inl rfl
  | none =>
    rw [get_or_create_missing hm]
    dsimp only [Account.new]
    by_cases hlt : (0 : Dec) < amt
    · rw [if_pos hlt]
      exact Or.inr (Or.inr ⟨rfl, rfl⟩)
    · rw [if_neg hlt]
      cases checkedSub 0 amt with
      | none => exact Or.inr (Or.inr ⟨rfl, rfl⟩)
      | some nh =>
        cases checkedAdd 0 amt with
        | none => exact Or.inr (Or.inr ⟨rfl, rfl⟩)
        | some nav => exact Or.inl rfl

theorem chargeback_state_shape (m : AccountMap) (c : Nat) (amt : Dec) :
    (AccountManager.chargeback m c amt).1 = .ok ∨
    (AccountManager.chargeback m c amt).2 = m ∨
    (mfind m c = none ∧ (AccountManager.chargeback m c amt).2 = m ++ [(c, Account.new c)]) := by
  unfold AccountManager.chargeback
  cases hm : mfind m c with
  | some a =>
    rw [get_or_create_found hm]
    dsimp only
    by_cases hlt : a.held < amt
    · rw [if_pos hlt]
      exact Or.inr (Or.inl rfl)
    · rw [if_neg hlt]
      cases checkedSub a.held amt with
      | none => exact Or.inr (Or.inl rfl)
      | some nh =>
        cases checkedSub a.total amt with
        | none => exact Or.inr (Or.inl rfl)
        | some nt => exact Or.inl rfl
  | none =>
    rw [get_or_create_missing hm]
    dsimp only [Account.new]
    by_cases hlt : (0 : Dec) < amt
    · rw [if_pos hlt]
      exact Or.inr (Or.inr ⟨rfl, rfl⟩)
    · rw [if_neg hlt]
      cases checkedSub 0 amt with
      | none => exact Or.inr (Or.inr ⟨rfl, rfl⟩)
      | some nh => exact Or.inl rfl

/-- The conclusion shared by the per-handler atomicity lemmas: on error,
the store is untouched and the account map is unchanged except possibly
for the lazy creation of a zero account for the record's client. -/
def ErrAtomic (e : EngineState) (r : TransactionRecord) (e' : EngineState) : Prop :=
  e'.txs = e.txs ∧
  (e'.accounts = e.accounts ∨
   (mfind e.accounts r.client = none ∧
    e'.accounts = e.accounts ++ [(r.client, Account.new r.client)]))

theorem process_deposit_err_atomic {e : EngineState} {r : TransactionRecord} {er : PaymentError}
    (h : (TransactionEngine.process_deposit e r).1 = .err er) :
    ErrAtomic e r (TransactionEngine.process_deposit e r).2 := by
  unfold TransactionEngine.process_deposit at h ⊢
  cases hA : r.amount with
  | none => exact ⟨rfl, Or.inl rfl⟩
  | some amt =>
    rw [hA] at h
    dsimp only at h ⊢
    cases hdup : (mfind e.txs r.tx).isSome with
    | true => exact ⟨rfl, Or.inl rfl⟩
    | false =>
      rw [hdup] at h
      rw [if_neg (by simp)] at h ⊢
      cases hop : AccountManager.deposit e.accounts r.client amt with
      | mk res am' =>
        rw [hop] at h
        dsimp only at h ⊢
        cases res with
        | ok => exact absurd h (by simp)
        | err er2 =>
          refine ⟨rfl, ?_⟩
          rcases deposit_state_shape e.accounts r.client amt with hok | hunch | ⟨hnone, happ⟩
          · rw [hop] at hok
            exact absurd hok (by simp)
          · rw [hop] at hunch
            exact Or.inl hunch
          · rw [hop] at happ
            exact Or.inr ⟨hnone, happ⟩

theorem process_withdrawal_err_atomic {e : EngineState} {r : TransactionRecord} {er : PaymentError}
    (h : (TransactionEngine.process_withdrawal e r).1 = .err er) :
    ErrAtomic e r (TransactionEngine.process_withdrawal e r).2 := by
  unfold TransactionEngine.process_withdrawal at h ⊢
  cases hA : r.amount with
  | none => exact ⟨rfl, Or.inl rfl⟩
  | some amt =>
    rw [hA] at h
    dsimp only at h ⊢
    cases hdup : (mfind e.txs r.tx).isSome with
    | true => exact ⟨rfl, Or.inl rfl⟩
    | false =>
      rw [hdup] at h
      rw [if_neg (by simp)] at h ⊢
      cases hop : AccountManager.withdraw e.accounts r.client amt with
      | mk res am' =>
        rw [hop] at h
        dsimp only at h ⊢
        cases res with
        | ok => exact absurd h (by simp)
        | err er2 =>
          refine ⟨rfl, ?_⟩
          rcases withdraw_state_shape e.accounts r.client amt with hok | hunch | ⟨hnone, happ⟩
          · rw [hop] at hok
            exact absurd hok (by simp)
          · rw [hop] at hunch
            exact Or.inl hunch
          · rw [hop] at happ
            exact Or.inr ⟨hnone, happ⟩

theorem process_dispute_err_atomic {e : EngineState} {r : TransactionRecord} {er : PaymentError}
    (h : (TransactionEngine.process_dispute e r).1 = .err er) :
    ErrAtomic e r (TransactionEngine.process_dispute e r).2 := by
  unfold TransactionEngine.process_dispute at h ⊢
  cases hf : mfind e.txs r.tx with
  | none => exact ⟨rfl, Or.inl rfl⟩
  | some st =>
    rw [hf] at h
    dsimp only at h ⊢
    by_cases hc : st.client ≠ r.client
    · rw [if_pos hc] at h ⊢
      exact ⟨rfl, Or.inl rfl⟩
    · rw [if_neg hc] at h ⊢
      by_cases hd : st.under_dispute = true
      · rw [if_pos hd] at h ⊢
        exact ⟨rfl, Or.inl rfl⟩
      · rw [if_neg hd] at h ⊢
        cases hop : AccountManager.hold_funds e.accounts r.client st.amount with
        | mk res am' =>
          rw [hop] at h
          dsimp only at h ⊢
          cases res with
          | err er2 =>
            refine ⟨rfl, ?_⟩
            rcases hold_funds_state_shape e.accounts r.client st.amount with hok | hunch | ⟨hnone, happ⟩
            · rw [hop] at hok
              exact absurd hok (by simp)
            · rw [hop] at hunch
              exact Or.inl hunch
            · rw [hop] at happ
              exact Or.inr ⟨hnone, happ⟩
          | ok =>
            unfold TransactionStore.mark_disputed at h
            rw [hf] at h
            dsimp only at h
            exact absurd h (by simp)

theorem process_resolve_err_atomic {e : EngineState} {r : TransactionRecord} {er : PaymentError}
    (h : (TransactionEngine.process_resolve e r).1 = .err er) :
    ErrAtomic e r (TransactionEngine.process_resolve e r).2 := by
  unfold TransactionEngine.process_resolve at h ⊢
  cases hf : mfind e.txs r.tx with
  | none => exact ⟨rfl, Or.inl rfl⟩
  | some st =>
    rw [hf] at h
    dsimp only at h ⊢
    by_cases hc : st.client ≠ r.client
    · rw [if_pos hc] at h ⊢
      exact ⟨rfl, Or.inl rfl⟩
    · rw [if_neg hc] at h ⊢
      by_cases hd : ¬st.under_dispute = true
      · rw [if_pos hd] at h ⊢
        exact ⟨rfl, Or.inl rfl⟩
      · rw [if_neg hd] at h ⊢
        cases hop : AccountManager.release_funds e.accounts r.client st.amount with
        | mk res am' =>
          rw [hop] at h
          dsimp only at h ⊢
          cases res with
          | err er2 =>
            refine ⟨rfl, ?_⟩
            rcases release_funds_state_shape e.accounts r.client st.amount with hok | hunch | ⟨hnone, happ⟩
            · rw [hop] at hok
              exact absurd hok (by simp)
            · rw [hop] at hunch
              exact Or.inl hunch
            · rw [hop] at happ
              exact Or.inr ⟨hnone, happ⟩
          | ok =>
            unfold TransactionStore.mark_resolved at h
            rw [hf] at h
            dsimp only at h
            exact absurd h (by simp)

theorem process_chargeback_err_atomic {e : EngineState} {r : TransactionRecord} {er : PaymentError}
    (h : (TransactionEngine.process_chargeback e r).1 = .err er) :
    ErrAtomic e r (TransactionEngine.process_chargeback e r).2 := by
  unfold TransactionEngine.process_chargeback at h ⊢
  cases hf : mfind e.txs r.tx with
  | none => exact ⟨rfl, Or.inl rfl⟩
  | some st =>
    rw [hf] at h
    dsimp only at h ⊢
    by_cases hc : st.client ≠ r.client
    · rw [if_pos hc] at h ⊢
      exact ⟨rfl, Or.inl rfl⟩
    · rw [if_neg hc] at h ⊢
      by_cases hd : ¬st.under_dispute = true
      · rw [if_pos hd] at h ⊢
        exact ⟨rfl, Or.inl rfl⟩
      · rw [if_neg hd] at h ⊢
        cases hop : AccountManager.chargeback e.accounts r.client st.amount with
        | mk res am' =>
          rw [hop] at h
          dsimp only at h ⊢
          refine ⟨rfl, ?_⟩
          rcases chargeback_state_shape e.accounts r.client st.amount with hok | hunch | ⟨hnone, happ⟩
          · rw [hop] at hok
            dsimp only at hok
            rw [hok] at h
            exact absurd h (by simp)
          · rw [hop] at hunch
            exact Or.inl hunch
          · rw [hop] at happ
            exact Or.inr ⟨hnone, happ⟩

theorem process_err_atomic {e : EngineState} {r : TransactionRecord} {er : PaymentError}
    (h : (TransactionEngine.process e r).1 = .err er) :
    ErrAtomic e r (TransactionEngine.process e r).2 := by
  unfold TransactionEngine.process at h ⊢
  cases hl : AccountManager.is_locked e.accounts r.client with
  | true => exact ⟨rfl, Or.inl rfl⟩
  | false =>
    rw [hl] at h
    rw [if_neg (by simp)] at h ⊢
    cases ht : r.tx_type with
    | deposit =>
      rw [ht] at h
      exact process_deposit_err_atomic h
    | withdrawal =>
      rw [ht] at h
      exact process_withdrawal_err_atomic h
    | dispute =>
      rw [ht] at h
      exact process_dispute_err_atomic h
    | resolve =>
      rw [ht] at h
      exact process_resolve_err_atomic h
    | chargeback =>
      rw [ht] at h
      exact process_chargeback_err_atomic h

/-! ### Chunked processing of a record list equals the plain fold -/

theorem chunksGo_foldl {α β : Type} (f : β → α → β) :
    ∀ (fuel n : Nat) (l : List α), l.length ≤ fuel → 0 < n → ∀ (init : β),
      (chunksGo n fuel l).foldl (fun b chunk => chunk.foldl f b) init = l.foldl f init := by
  intro fuel
  induction fuel with
  | zero =>
    intro n l hl _ init
    cases l with
    | nil => rfl
    | cons x xs => simp at hl
  | succ fuel ih =>
    intro n l hl hn init
    cases l with
    | nil => rfl
    | cons x xs =>
      have hdrop : ((x :: xs).drop n).length ≤ fuel := by
        simp only [List.length_drop, List.length_cons] at hl ⊢
        omega
      calc (chunksGo n (fuel + 1) (x :: xs)).foldl (fun b chunk => chunk.foldl f b) init
          = (chunksGo n fuel ((x :: xs).drop n)).foldl (fun b chunk => chunk.foldl f b)
              (((x :: xs).take n).foldl f init) := rfl
        _ = ((x :: xs).drop n).foldl f (((x :: xs).take n).foldl f init) := ih n _ hdrop hn _
        _ = (((x :: xs).take n) ++ ((x :: xs).drop n)).foldl f init := (List.foldl_append ..).symm
        _ = (x :: xs).foldl f init := by rw [List.take_append_drop]

theorem runAsyncBatched_eq_runAsync {n : Nat} (hn : 0 < n) (rs : List TransactionRecord) :
    runAsyncBatched n rs = runAsync rs :=
  chunksGo_foldl _ rs.length n rs le_rfl hn _

/-! ### Digits of the 4-place fraction -/

theorem digitChar_isDigit {n : Nat} (h : n < 10) : (Nat.digitChar n).isDigit = true := by
  interval_cases n <;> decide

/-! ### Concrete record and state fixtures used by the claim theorems -/

/-- A deposit record. -/
def depRec (c t : Nat) (a : Dec) : TransactionRecord :=
  { tx_type := .deposit, client := c, tx := t, amount := some a }

/-- A withdrawal record. -/
def wdRec (c t : Nat) (a : Dec) : TransactionRecord :=
  { tx_type := .withdrawal, client := c, tx := t, amount := some a }

/-- A dispute record. -/
def dspRec (c t : Nat) : TransactionRecord :=
  { tx_type := .dispute, client := c, tx := t, amount := none }

/-- A resolve record. -/
def rsvRec (c t : Nat) : TransactionRecord :=
  { tx_type := .resolve, client := c, tx := t, amount := none }

/-- A chargeback record. -/
def cbRec (c t : Nat) : TransactionRecord :=
  { tx_type := .chargeback, client := c, tx := t, amount := none }

/-- Deposit 1.0000, withdraw 1.0000, then dispute the deposit: the
sequential engine rejects the dispute (`InsufficientAvailableFunds`),
the concurrent engine accepts it and drives `available` to -1.0000. -/
def divergingInput : List TransactionRecord :=
  [depRec 1 1 10000, wdRec 1 2 10000, dspRec 1 1]

/-- Two deposits, then dispute + chargeback of the first: leaves client 1
locked with available 1.0000, and transaction 2 stored undisputed. -/
def lockSequence : List TransactionRecord :=
  [depRec 1 1 10000, depRec 1 2 10000, dspRec 1 1, cbRec 1 1]

/-- The state after `lockSequence` (client 1 locked). -/
def lockedState : EngineState := runSync lockSequence

/-- Two deposits and a dispute of the first: client 1 unlocked,
transaction 1 disputed, transaction 2 stored undisputed. -/
def plainState : EngineState := runSync [depRec 1 1 10000, depRec 1 2 10000, dspRec 1 1]

set_option maxRecDepth 10000

/-- Claim C1 (code bug): the sequential and the concurrent strategy are
NOT equivalent.  On `divergingInput` (a single-client input, so the batch
scheduler applies the records in source order for every chunk size and
worker count) the sequential engine rejects the dispute for insufficient
available funds, while the concurrent engine has no such check: the final
snapshots differ for every positive chunk size. -/
theorem C1_strategy_equivalence_refuted : ∀ k : Nat,
    snapshot (runSync divergingInput) =
      [{ client := 1, available := 0, held := 0, total := 0, locked := false }] ∧
    snapshot (runAsyncBatched (k + 1) divergingInput) =
      [{ client := 1, available := -10000, held := 10000, total := 0, locked := false }] ∧
    snapshot (runSync divergingInput) ≠ snapshot (runAsyncBatched (k + 1) divergingInput) := by
  intro k
  rw [runAsyncBatched_eq_runAsync (Nat.succ_pos k)]
  exact ⟨by decide, by decide, by decide⟩

/-- Claim C3 (counterexample): in the concurrent engine a dispute whose
stored amount exceeds the account's available funds DOES drive
`available` negative — after `divergingInput` the account sits at
available = -1.0000. -/
theorem C3_async_dispute_negative_cex :
    mfind (runAsync divergingInput).accounts 1 =
      some { client := 1, available := -10000, held := 10000, total := 0, locked := false } ∧
    ((-10000 : Dec) < 0) := by
  exact ⟨by decide, by decide⟩

/-- Claim C3 (amended): in the SEQUENTIAL engine, for any input whose
record amounts are all non-negative, every account satisfies
`total = available + held`, `available ≥ 0` and `held ≥ 0` after every
operation (the statement quantifies over all input prefixes); the
concurrent engine's dispute path lacks the `available ≥ amount` check and
violates this (see the counterexample). -/
theorem C3_sync_invariant : ∀ rs : List TransactionRecord,
    (∀ r ∈ rs, nonnegAmount r = true) →
    ∀ p ∈ (runSync rs).accounts,
      p.2.total = p.2.available + p.2.held ∧ 0 ≤ p.2.available ∧ 0 ≤ p.2.held := by
  intro rs h
  have hs := foldl_StateOK rs EngineState.empty
    (fun p hp => absurd hp (List.not_mem_nil p))
    (fun p hp => absurd hp (List.not_mem_nil p)) h
  exact fun p hp => hs.1 p hp

/-- Witness for `C3_sync_invariant` at a concrete two-record input. -/
theorem C3_sync_invariant_witness :
    (∀ r ∈ [depRec 1 1 10000, wdRec 1 2 4000], nonnegAmount r = true) ∧
    ((1, ({ client := 1, available := 6000, held := 0, total := 6000, locked := false } : Account)) ∈
      (runSync [depRec 1 1 10000, wdRec 1 2 4000]).accounts) ∧
    ((6000 : Dec) = 6000 + 0 ∧ (0 : Dec) ≤ 6000 ∧ (0 : Dec) ≤ 0) := by
  refine ⟨by decide, by decide, ?_⟩
  exact C3_sync_invariant [depRec 1 1 10000, wdRec 1 2 4000] (by decide)
    (1, { client := 1, available := 6000, held := 0, total := 6000, locked := false }) (by decide)

/-- Claim C4 (counterexample): a rejected record CAN mutate state — a
withdrawal for an unknown client fails with `InsufficientFunds` yet
creates the client's account (it appears in the final snapshot), so the
account state is not exactly as before. -/
theorem C4_failed_withdrawal_creates_account_cex :
    (TransactionEngine.process EngineState.empty (wdRec 1 1 10000)).1 = .err .InsufficientFunds ∧
    (TransactionEngine.process EngineState.empty (wdRec 1 1 10000)).2.accounts ≠
      EngineState.empty.accounts := by
  exact ⟨by decide, by decide⟩

/-- Claim C4 (amended): in the sequential engine, when processing a
record returns an error the transaction store is exactly as before and
every existing account is exactly as before; the only possible state
change is the lazy creation of a zero-balance account for the record's
client.  (The concurrent engine additionally stores a deposit before the
balance update, so a deposit failing on overflow leaves the transaction
stored.) -/
theorem C4_error_atomic_up_to_account_creation :
    ∀ (e : EngineState) (r : TransactionRecord) (er : PaymentError),
      (TransactionEngine.process e r).1 = .err er →
      (TransactionEngine.process e r).2.txs = e.txs ∧
      ((TransactionEngine.process e r).2.accounts = e.accounts ∨
       (mfind e.accounts r.client = none ∧
        (TransactionEngine.process e r).2.accounts =
          e.accounts ++ [(r.client, Account.new r.client)])) :=
  fun _ _ _ h => process_err_atomic h

/-- Witness for `C4_error_atomic_up_to_account_creation` at a failed
withdrawal on the empty engine. -/
theorem C4_error_atomic_witness :
    (TransactionEngine.process EngineState.empty (wdRec 1 1 10000)).2.txs = EngineState.empty.txs ∧
    ((TransactionEngine.process EngineState.empty (wdRec 1 1 10000)).2.accounts =
        EngineState.empty.accounts ∨
     (mfind EngineState.empty.accounts (wdRec 1 1 10000).client = none ∧
      (TransactionEngine.process EngineState.empty (wdRec 1 1 10000)).2.accounts =
        EngineState.empty.accounts ++
          [((wdRec 1 1 10000).client, Account.new (wdRec 1 1 10000).client)])) :=
  C4_error_atomic_up_to_account_creation EngineState.empty (wdRec 1 1 10000)
    .InsufficientFunds (by decide)

/-- Claim C10 (counterexample): a withdrawal with amount 0 referencing a
client with no existing account does NOT fail with `InsufficientFunds` —
it succeeds (the `available < amount` check is not triggered). -/
theorem C10_zero_amount_withdrawal_cex :
    mfind EngineState.empty.accounts 1 = none ∧
    (TransactionEngine.process EngineState.empty (wdRec 1 1 0)).1 = .ok := by
  exact ⟨by decide, by decide⟩

/-- Claim C10 (amended): every withdrawal with POSITIVE amount and fresh
transaction id referencing a client with no existing account fails with
`InsufficientFunds`, yet creates the account with zero balances and
unlocked status, so the client appears in the final snapshot with
available = held = total = 0; the store is untouched. -/
theorem C10_withdrawal_creates_account :
    ∀ (e : EngineState) (c t : Nat) (a : Dec),
      0 < a →
      mfind e.accounts c = none →
      mfind e.txs t = none →
      (TransactionEngine.process e { tx_type := .withdrawal, client := c, tx := t, amount := some a }).1 =
        .err .InsufficientFunds ∧
      (TransactionEngine.process e { tx_type := .withdrawal, client := c, tx := t, amount := some a }).2.accounts =
        e.accounts ++ [(c, Account.new c)] ∧
      mfind (TransactionEngine.process e { tx_type := .withdrawal, client := c, tx := t, amount := some a }).2.accounts c =
        some (Account.new c) ∧
      (TransactionEngine.process e { tx_type := .withdrawal, client := c, tx := t, amount := some a }).2.txs =
        e.txs := by
  intro e c t a ha hacc htx
  have hlock : AccountManager.is_locked e.accounts c = false := by
    unfold AccountManager.is_locked
    rw [hacc]
  unfold TransactionEngine.process
  dsimp only
  rw [hlock]
  rw [if_neg (by simp)]
  unfold TransactionEngine.process_withdrawal
  dsimp only
  rw [htx]
  rw [if_neg (by simp)]
  unfold AccountManager.withdraw
  rw [get_or_create_missing hacc]
  dsimp only [Account.new]
  rw [if_pos ha]
  refine ⟨rfl, rfl, ?_, rfl⟩
  rw [mfind_append_none hacc]
  simp [mfind, Account.new]

/-- Witness for `C10_withdrawal_creates_account` on the empty engine. -/
theorem C10_withdrawal_creates_account_witness :
    (TransactionEngine.process EngineState.empty
        { tx_type := .withdrawal, client := 2, tx := 7, amount := some 10000 }).1 =
      .err .InsufficientFunds ∧
    (TransactionEngine.process EngineState.empty
        { tx_type := .withdrawal, client := 2, tx := 7, amount := some 10000 }).2.accounts =
      EngineState.empty.accounts ++ [(2, Account.new 2)] ∧
    mfind (TransactionEngine.process EngineState.empty
        { tx_type := .withdrawal, client := 2, tx := 7, amount := some 10000 }).2.accounts 2 =
      some (Account.new 2) ∧
    (TransactionEngine.process EngineState.empty
        { tx_type := .withdrawal, client := 2, tx := 7, amount := some 10000 }).2.txs =
      EngineState.empty.txs :=
  C10_withdrawal_creates_account EngineState.empty 2 7 10000 (by decide) rfl rfl

/-- Claim C2 (counterexample): in the sequential engine the lock check
precedes the type dispatch, so a dispute on a locked account IS rejected
by the lock check (with `AccountLocked`) instead of proceeding to the
dispute-lifecycle validation. -/
theorem C2_sync_lock_rejects_dispute_cex :
    AccountManager.is_locked lockedState.accounts 1 = true ∧
    mfind lockedState.txs 2 =
      some { client := 1, amount := 10000, tx_type := .deposit, under_dispute := false } ∧
    TransactionEngine.process lockedState (dspRec 1 2) = (.err .AccountLocked, lockedState) := by
  exact ⟨by decide, by decide, by decide⟩

/-- Claim C2 (amended): in the concurrent engine the lock gate works as
the claim states — deposit/withdrawal on a locked account fail with
`AccountLocked` and dispute/resolve/chargeback bypass the lock check and
go straight to their handlers; in the SEQUENTIAL engine, every record
type (including dispute/resolve/chargeback) on a locked account fails
with `AccountLocked`. -/
theorem C2_lock_gate_amended : ∀ (e : EngineState) (r : TransactionRecord),
    (AccountManager.is_locked e.accounts r.client = true →
      TransactionEngine.process e r = (.err .AccountLocked, e)) ∧
    ((r.tx_type = .deposit ∨ r.tx_type = .withdrawal) →
      AccountManager.is_locked e.accounts r.client = true →
      AsyncTransactionEngine.process_transaction e r = (.err .AccountLocked, e)) ∧
    (r.tx_type = .dispute →
      AsyncTransactionEngine.process_transaction e r =
        AsyncTransactionEngine.process_dispute e r) ∧
    (r.tx_type = .resolve →
      AsyncTransactionEngine.process_transaction e r =
        AsyncTransactionEngine.process_resolve e r) ∧
    (r.tx_type = .chargeback →
      AsyncTransactionEngine.process_transaction e r =
        AsyncTransactionEngine.process_chargeback e r) := by
  intro e r
  refine ⟨?_, ?_, ?_, ?_, ?_⟩
  · intro hl
    unfold TransactionEngine.process
    rw [hl]
    rfl
  · rintro (h | h) hl <;>
      · unfold AsyncTransactionEngine.process_transaction
        rw [h, hl]
        rfl
  · intro h
    unfold AsyncTransactionEngine.process_transaction
    rw [h]
  · intro h
    unfold AsyncTransactionEngine.process_transaction
    rw [h]
  · intro h
    unfold AsyncTransactionEngine.process_transaction
    rw [h]

/-- Witness for `C2_lock_gate_amended` on the locked fixture state. -/
theorem C2_lock_gate_witness :
    TransactionEngine.process lockedState (dspRec 1 2) = (.err .AccountLocked, lockedState) ∧
    AsyncTransactionEngine.process_transaction lockedState (depRec 1 3 5000) =
      (.err .AccountLocked, lockedState) ∧
    AsyncTransactionEngine.process_transaction lockedState (dspRec 1 2) =
      AsyncTransactionEngine.process_dispute lockedState (dspRec 1 2) := by
  refine ⟨?_, ?_, ?_⟩
  · exact (C2_lock_gate_amended lockedState (dspRec 1 2)).1 (by decide)
  · exact (C2_lock_gate_amended lockedState (depRec 1 3 5000)).2.1 (Or.inl rfl) (by decide)
  · exact (C2_lock_gate_amended lockedState (dspRec 1 2)).2.2.1 rfl

/-- Claim C6 (counterexample): a resolve referencing a stored,
non-disputed transaction does NOT always fail with
`TransactionNotDisputed`: on a locked account the sequential engine
rejects it with `AccountLocked` first. -/
theorem C6_lockgate_preempts_lifecycle_cex :
    mfind lockedState.txs 2 =
      some { client := 1, amount := 10000, tx_type := .deposit, under_dispute := false } ∧
    TransactionEngine.process lockedState (rsvRec 1 2) = (.err .AccountLocked, lockedState) := by
  exact ⟨by decide, by decide⟩

/-- Claim C6 (amended): for a stored transaction with matching client,
provided the lock gate does not reject the record first (which in the
sequential engine requires the account to be unlocked; the concurrent
engine never lock-checks these types): resolve or chargeback while the
disputed flag is false fails with `TransactionNotDisputed`, dispute while
the flag is true fails with `TransactionAlreadyDisputed`, and in each
failing case the whole engine state is unchanged. -/
theorem C6_dispute_lifecycle_amended :
    ∀ (e : EngineState) (r : TransactionRecord) (st : StoredTransaction),
      mfind e.txs r.tx = some st →
      st.client = r.client →
      ((r.tx_type = .resolve → st.under_dispute = false →
          AccountManager.is_locked e.accounts r.client = false →
          TransactionEngine.process e r = (.err .TransactionNotDisputed, e)) ∧
       (r.tx_type = .chargeback → st.under_dispute = false →
          AccountManager.is_locked e.accounts r.client = false →
          TransactionEngine.process e r = (.err .TransactionNotDisputed, e)) ∧
       (r.tx_type = .dispute → st.under_dispute = true →
          AccountManager.is_locked e.accounts r.client = false →
          TransactionEngine.process e r = (.err .TransactionAlreadyDisputed, e)) ∧
       (r.tx_type = .resolve → st.under_dispute = false →
          AsyncTransactionEngine.process_transaction e r = (.err .TransactionNotDisputed, e)) ∧
       (r.tx_type = .chargeback → st.under_dispute = false →
          AsyncTransactionEngine.process_transaction e r = (.err .TransactionNotDisputed, e)) ∧
       (r.tx_type = .dispute → st.under_dispute = true →
          AsyncTransactionEngine.process_transaction e r = (.err .TransactionAlreadyDisputed, e))) := by
  intro e r st hf hc
  have hcne : ¬st.client ≠ r.client := fun h => h hc
  refine ⟨?_, ?_, ?_, ?_, ?_, ?_⟩
  · intro ht hd hl
    unfold TransactionEngine.process
    rw [hl, if_neg (by simp), ht]
    unfold TransactionEngine.process_resolve
    rw [hf]
    dsimp only
    rw [if_neg hcne, if_pos (by simp [hd])]
  · intro ht hd hl
    unfold TransactionEngine.process
    rw [hl, if_neg (by simp), ht]
    unfold TransactionEngine.process_chargeback
    rw [hf]
    dsimp only
    rw [if_neg hcne, if_pos (by simp [hd])]
  · intro ht hd hl
    unfold TransactionEngine.process
    rw [hl, if_neg (by simp), ht]
    unfold TransactionEngine.process_dispute
    rw [hf]
    dsimp only
    rw [if_neg hcne, if_pos hd]
  · intro ht hd
    unfold AsyncTransactionEngine.process_transaction
    rw [ht]
    unfold AsyncTransactionEngine.process_resolve
    rw [hf]
    dsimp only
    rw [if_neg hcne, if_pos (by simp [hd])]
  · intro ht hd
    unfold AsyncTransactionEngine.process_transaction
    rw [ht]
    unfold AsyncTransactionEngine.process_chargeback
    rw [hf]
    dsimp only
    rw [if_neg hcne, if_pos (by simp [hd])]
  · intro ht hd
    unfold AsyncTransactionEngine.process_transaction
    rw [ht]
    unfold AsyncTransactionEngine.process_dispute
    rw [hf]
    dsimp only
    rw [if_neg hcne]
    unfold AsyncTransactionStore.update
    rw [hf]
    dsimp only
    rw [if_pos hd]
    dsimp only
    rw [mset_self hf]

/-- Witness for `C6_dispute_lifecycle_amended` on the unlocked fixture. -/
theorem C6_dispute_lifecycle_witness :
    TransactionEngine.process plainState (rsvRec 1 2) =
      (.err .TransactionNotDisputed, plainState) ∧
    AsyncTransactionEngine.process_transaction plainState (dspRec 1 1) =
      (.err .TransactionAlreadyDisputed, plainState) := by
  constructor
  · exact (C6_dispute_lifecycle_amended plainState (rsvRec 1 2)
      { client := 1, amount := 10000, tx_type := .deposit, under_dispute := false }
      (by decide) (by decide)).1 rfl (by decide) (by decide)
  · exact (C6_dispute_lifecycle_amended plainState (dspRec 1 1)
      { client := 1, amount := 10000, tx_type := .deposit, under_dispute := true }
      (by decide) (by decide)).2.2.2.2.2 rfl (by decide)

/-- Claim C7 (counterexample): a deposit whose transaction id already
exists is NOT always rejected with `DuplicateTransaction`: on a locked
account the lock gate rejects it with `AccountLocked` first. -/
theorem C7_lockgate_preempts_duplicate_cex :
    mfind lockedState.txs 1 =
      some { client := 1, amount := 10000, tx_type := .deposit, under_dispute := true } ∧
    TransactionEngine.process lockedState (depRec 1 1 5000) = (.err .AccountLocked, lockedState) := by
  exact ⟨by decide, by decide⟩

/-- Claim C7 (amended): a deposit or withdrawal carrying an amount whose
transaction id already exists in the store, processed while the account
is NOT locked, is rejected with `DuplicateTransaction` by both engines;
the whole state is unchanged, and the store still holds the first-stored
entry for that id. -/
theorem C7_duplicate_id_amended :
    ∀ (e : EngineState) (r : TransactionRecord) (amt : Dec) (st : StoredTransaction),
      (r.tx_type = .deposit ∨ r.tx_type = .withdrawal) →
      r.amount = some amt →
      AccountManager.is_locked e.accounts r.client = false →
      mfind e.txs r.tx = some st →
      TransactionEngine.process e r = (.err .DuplicateTransaction, e) ∧
      AsyncTransactionEngine.process_transaction e r = (.err .DuplicateTransaction, e) ∧
      mfind (TransactionEngine.process e r).2.txs r.tx = some st := by
  intro e r amt st hty hA hl hf
  have hsync : TransactionEngine.process e r = (.err .DuplicateTransaction, e) := by
    unfold TransactionEngine.process
    rw [hl]
    rcases hty with h | h
    · rw [h]
      unfold TransactionEngine.process_deposit
      rw [hA]
      dsimp only
      rw [hf]
      simp
    · rw [h]
      unfold TransactionEngine.process_withdrawal
      rw [hA]
      dsimp only
      rw [hf]
      simp
  have hasync : AsyncTransactionEngine.process_transaction e r = (.err .DuplicateTransaction, e) := by
    unfold AsyncTransactionEngine.process_transaction
    rcases hty with h | h
    · rw [h, hl]
      unfold AsyncTransactionEngine.process_deposit
      rw [hA]
      dsimp only
      rw [hf]
      simp
    · rw [h, hl]
      unfold AsyncTransactionEngine.process_withdrawal
      rw [hA]
      dsimp only
      rw [hf]
      simp
  refine ⟨hsync, hasync, ?_⟩
  rw [hsync]
  exact hf

/-- Witness for `C7_duplicate_id_amended` on the unlocked fixture. -/
theorem C7_duplicate_id_witness :
    TransactionEngine.process plainState (depRec 1 1 5000) =
      (.err .DuplicateTransaction, plainState) ∧
    AsyncTransactionEngine.process_transaction plainState (depRec 1 1 5000) =
      (.err .DuplicateTransaction, plainState) ∧
    mfind (TransactionEngine.process plainState (depRec 1 1 5000)).2.txs 1 =
      some { client := 1, amount := 10000, tx_type := .deposit, under_dispute := true } :=
  C7_duplicate_id_amended plainState (depRec 1 1 5000) 5000
    { client := 1, amount := 10000, tx_type := .deposit, under_dispute := true }
    (Or.inl rfl) rfl (by decide) (by decide)

/-- Claim C8 (counterexample): a withdrawal exceeding the available funds
is NOT always rejected with `InsufficientFunds`: on a locked account the
lock gate rejects it with `AccountLocked` first (balances unchanged, id
still free, but the error differs from the claim). -/
theorem C8_lockgate_preempts_insufficient_cex :
    mfind lockedState.accounts 1 =
      some { client := 1, available := 10000, held := 0, total := 10000, locked := true } ∧
    mfind lockedState.txs 3 = none ∧
    ((10000 : Dec) < 20000) ∧
    TransactionEngine.process lockedState (wdRec 1 3 20000) = (.err .AccountLocked, lockedState) := by
  exact ⟨by decide, by decide, by decide, by decide⟩

/-- Claim C8 (amended): a withdrawal with a fresh transaction id on an
existing, unlocked account whose available funds are below the amount
fails with `InsufficientFunds` in both engines, the whole state is
unchanged, and in particular nothing is stored under that id. -/
theorem C8_insufficient_funds_amended :
    ∀ (e : EngineState) (c t : Nat) (amt : Dec) (acct : Account),
      AccountManager.is_locked e.accounts c = false →
      mfind e.txs t = none →
      mfind e.accounts c = some acct →
      acct.available < amt →
      TransactionEngine.process e
          { tx_type := .withdrawal, client := c, tx := t, amount := some amt } =
        (.err .InsufficientFunds, e) ∧
      AsyncTransactionEngine.process_transaction e
          { tx_type := .withdrawal, client := c, tx := t, amount := some amt } =
        (.err .InsufficientFunds, e) := by
  intro e c t amt acct hl htx hacc hlt
  constructor
  · unfold TransactionEngine.process
    dsimp only
    rw [hl]
    unfold TransactionEngine.process_withdrawal
    dsimp only
    rw [htx]
    unfold AccountManager.withdraw
    rw [get_or_create_found hacc]
    dsimp only
    rw [if_pos hlt]
    simp
  · unfold AsyncTransactionEngine.process_transaction
    dsimp only
    rw [hl]
    unfold AsyncTransactionEngine.process_withdrawal
    dsimp only
    rw [htx]
    unfold AsyncAccountManager.update
    rw [hacc]
    dsimp only
    rw [if_pos hlt]
    dsimp only
    rw [mset_self hacc]
    simp

/-- Witness for `C8_insufficient_funds_amended` on the unlocked fixture. -/
theorem C8_insufficient_funds_witness :
    TransactionEngine.process plainState
        { tx_type := .withdrawal, client := 1, tx := 3, amount := some 20000 } =
      (.err .InsufficientFunds, plainState) ∧
    AsyncTransactionEngine.process_transaction plainState
        { tx_type := .withdrawal, client := 1, tx := 3, amount := some 20000 } =
      (.err .InsufficientFunds, plainState) :=
  C8_insufficient_funds_amended plainState 1 3 20000
    { client := 1, available := 10000, held := 10000, total := 20000, locked := false }
    (by decide) (by decide) (by decide) (by decide)


/-! ### Claim C5: negative amounts -/

/-- Claim C5, counterexample: `convert_csv_record` performs no sign check,
so a deposit record with amount `-5` parses to `-50000` in `10^-4` units,
is applied to the ledger (available and total become negative), and is
stored with a negative amount — refuting the claimed `InvalidAmount`
rejection. -/
theorem C5_negative_amount_cex :
    convert_csv_record { tx_type := "deposit", client := 1, tx := 1, amount := some "-5" } =
      .ok { tx_type := .deposit, client := 1, tx := 1, amount := some (-50000) } ∧
    TransactionEngine.process EngineState.empty
        { tx_type := .deposit, client := 1, tx := 1, amount := some (-50000) } =
      (.ok,
        { accounts := [(1, { client := 1, available := -50000, held := 0, total := -50000, locked := false })],
          txs := [(1, { client := 1, amount := -50000, tx_type := .deposit, under_dispute := false })] }) :=
  ⟨rfl, by decide⟩

/-- Claim C5 (amended): the CSV converter accepts a negative amount (there
is no sign check in `convert_csv_record`), and the engine applies a deposit
of ANY amount `a` within the mantissa range — negative included — to a
fresh ledger, recording `a` both in the account balances and in the stored
transaction. -/
theorem C5_negative_amount_amended :
    (convert_csv_record { tx_type := "deposit", client := 1, tx := 1, amount := some "-5" } =
      .ok { tx_type := .deposit, client := 1, tx := 1, amount := some (-50000) }) ∧
    ∀ a : Dec, -DMAX ≤ a → a ≤ DMAX →
      TransactionEngine.process EngineState.empty
          { tx_type := .deposit, client := 1, tx := 1, amount := some a } =
        (.ok,
          { accounts := [(1, { client := 1, available := a, held := 0, total := a, locked := false })],
            txs := [(1, { client := 1, amount := a, tx_type := .deposit, under_dispute := false })] }) := by
  refine ⟨rfl, ?_⟩
  intro a h1 h2
  have hca : checkedAdd 0 a = some a := by
    unfold checkedAdd
    rw [zero_add]
    exact if_pos ⟨h1, h2⟩
  have hdep : AccountManager.deposit [] 1 a =
      (.ok, [(1, { client := 1, available := a, held := 0, total := a, locked := false })]) := by
    unfold AccountManager.deposit
    rw [@get_or_create_missing [] 1 rfl]
    dsimp only [Account.new]
    rw [hca]
    dsimp only
    simp [mset]
  unfold TransactionEngine.process
  dsimp only [EngineState.empty]
  rw [if_neg (by decide)]
  unfold TransactionEngine.process_deposit
  dsimp only
  rw [if_neg (by decide)]
  rw [hdep]
  dsimp only
  simp [TransactionStore.store, mfind]

/-- Witness for `C5_negative_amount_amended` at the in-range negative
amount `-5.0000`. -/
theorem C5_negative_amount_witness :
    (-DMAX ≤ (-50000 : Dec)) ∧ ((-50000 : Dec) ≤ DMAX) ∧
    TransactionEngine.process EngineState.empty
        { tx_type := .deposit, client := 1, tx := 1, amount := some (-50000) } =
      (.ok,
        { accounts := [(1, { client := 1, available := -50000, held := 0, total := -50000, locked := false })],
          txs := [(1, { client := 1, amount := -50000, tx_type := .deposit, under_dispute := false })] }) :=
  ⟨by decide, by decide, C5_negative_amount_amended.2 (-50000) (by decide) (by decide)⟩

/-! ### Claim C9: output format -/

/-- Claim C9 (confirmed): `write_accounts_csv` emits the header plus one
row per account ever created (length = accounts + 1), with the data rows a
permutation of the account list sorted ascending by client id; every
decimal field is the integer part, a dot, then exactly four digit
characters; `locked` is rendered as the literal `true` or `false`. -/
theorem C9_output_format (accounts : List Account) :
    ∃ sorted : List Account,
      sorted.Perm accounts ∧
      List.Sorted byClient sorted ∧
      write_accounts_csv accounts = headerRow :: sorted.map accountRow ∧
      (write_accounts_csv accounts).length = accounts.length + 1 ∧
      (∀ x : Dec, ∃ intPart : String,
          fmt4 x = intPart ++ "." ++ String.mk (fracDigits x) ∧
          (fracDigits x).length = 4 ∧
          (fracDigits x).all Char.isDigit = true) ∧
      ∀ a : Account, (accountRow a).getLast? = some (boolLiteral a.locked) ∧
        (boolLiteral a.locked = "true" ∨ boolLiteral a.locked = "false") := by
  refine ⟨sortAccounts accounts, List.perm_insertionSort byClient accounts,
    List.sorted_insertionSort byClient accounts, rfl, ?_, ?_, ?_⟩
  · simp [write_accounts_csv, sortAccounts,
      (List.perm_insertionSort byClient accounts).length_eq]
  · intro x
    refine ⟨(if x < 0 then "-" else "") ++ toString (x.natAbs / 10000), rfl, rfl, ?_⟩
    have h4 : ∀ n, n < 10 → (Nat.digitChar n).isDigit = true := fun n hn => digitChar_isDigit hn
    simp only [fracDigits, List.all_cons, List.all_nil, Bool.and_true]
    rw [h4 _ (by omega), h4 _ (by omega), h4 _ (by omega), h4 _ (by omega)]
    simp
  · intro a
    refine ⟨rfl, ?_⟩
    unfold boolLiteral
    cases a.locked <;> simp


end Payments
